import Mathlib

/-!
Verification of the device resolution and hotplug-notification core of the
udev library, as exercised by `src/udev/lib/test-libudev.c`.

The repository ships only the test harness; the library core (DeviceResolver,
DeviceEnumerator, EventMonitor, DeviceRecord) is specified but not included,
so those components are modelled from the specification.  The harness's own
code (`test_enumerate`, the syspath normalization in `main`) is embedded
directly from the C source.
-/

namespace Udev

/-- Modelled from the spec: `action` is one of
{add, remove, change, move, online, offline, absent}; "absent" is reserved
for records built from a direct lookup rather than an event. -/
inductive Action where
  | add | remove | change | move | online | offline | absent
  deriving DecidableEq

/-- Modelled from the spec: DeviceRecord — immutable-once-built snapshot of a
device's identity, classification, links and properties.  The lazily-resolved
parent reference is an arena index (spec design note: "arena of records
indexed by syspath plus plain index-based parent links"); the on-demand
attribute cache is an external filesystem read and is outside these claims. -/
structure DeviceRecord where
  syspath : String
  devpath : String
  subsystem : String
  driver : String
  devnode : Option String
  devnum : Option (Nat × Nat)
  action : Action
  links : List String
  properties : List (String × String)
  parent : Option Nat
  deriving DecidableEq

/-- Tests whether the character list `b` begins with `a`: the semantics of
`strncmp(b, a, strlen(a)) == 0` used at test-libudev.c:288. -/
def listStarts : List Char → List Char → Bool
  | [], _ => true
  | _ :: _, [] => false
  | a :: as, b :: bs => a == b && listStarts as bs

/-- String form of `listStarts`. -/
def strStarts (a b : String) : Bool :=
  listStarts a.data b.data

/-- Modelled from the spec: a DeviceResolver bound to one root context — a
configured sys root and the registered devices (the read-only device
hierarchy snapshot), keyed by canonical syspath. -/
structure Resolver where
  sysPath : String
  db : List DeviceRecord

inductive ResolveError where
  | notFound
  deriving DecidableEq

/-- Normalization against the configured root, embedded from
test-libudev.c:287-291: when the input does not already start with the sys
root, the root is prepended. -/
def normalizePath (root p : String) : String :=
  if strStarts root p then p else root ++ p

/-- Modelled from the spec: `resolve_by_syspath(path)` fails with `NotFound`
if no device exists at that identity, normalizes relative-looking input
against the configured root, and the result's `action` is absent. -/
def resolve_by_syspath (R : Resolver) (p : String) : Except ResolveError DeviceRecord :=
  match R.db.find? (fun d => d.syspath == normalizePath R.sysPath p) with
  | none => Except.error ResolveError.notFound
  | some d => Except.ok { d with action := Action.absent }

theorem listStarts_self_append (xs ys : List Char) :
    listStarts xs (xs ++ ys) = true := by
  induction xs with
  | nil => rfl
  | cons a as ih => simp [listStarts, ih]

theorem strStarts_self_append (a b : String) :
    strStarts a (a ++ b) = true := by
  unfold strStarts
  rw [String.data_append]
  exact listStarts_self_append a.data b.data

/-- A concrete resolver used to instantiate the resolver theorems. -/
def demoNullRecord : DeviceRecord :=
  { syspath := "/sys/devices/virtual/mem/null"
    devpath := "/devices/virtual/mem/null"
    subsystem := "mem"
    driver := ""
    devnode := some "/dev/null"
    devnum := some (1, 3)
    action := Action.add
    links := []
    properties := []
    parent := none }

/-- A concrete resolver with sys root "/sys" and one registered device. -/
def demoResolver : Resolver :=
  { sysPath := "/sys", db := [demoNullRecord] }

/-- C1: For every valid syspath input, resolving a bare identity and
resolving the same identity already prefixed by the configured root yield
identical records: normalization is idempotent under prefixing. -/
theorem resolve_by_syspath_root_invariant (R : Resolver) (p : String)
    (h : strStarts R.sysPath p = false) :
    resolve_by_syspath R p = resolve_by_syspath R (R.sysPath ++ p) := by
  unfold resolve_by_syspath normalizePath
  rw [h, strStarts_self_append]
  simp

/-- C1 witness: the bare identity "/devices/virtual/mem/null" and the
root-prefixed identity resolve to the same record in the demo resolver. -/
theorem resolve_by_syspath_root_invariant_witness :
    strStarts "/sys" "/devices/virtual/mem/null" = false ∧
    resolve_by_syspath demoResolver "/devices/virtual/mem/null" =
      resolve_by_syspath demoResolver ("/sys" ++ "/devices/virtual/mem/null") :=
  ⟨by decide, resolve_by_syspath_root_invariant demoResolver "/devices/virtual/mem/null" (by decide)⟩

/-- C6: `resolve_by_syspath` fails with NotFound exactly when no device in
the database has the normalized identity; when it succeeds, the returned
record's action is absent. -/
theorem resolve_by_syspath_notFound_iff (R : Resolver) (p : String) :
    (resolve_by_syspath R p = Except.error ResolveError.notFound ↔
      ∀ d ∈ R.db, d.syspath ≠ normalizePath R.sysPath p) ∧
    (∀ d, resolve_by_syspath R p = Except.ok d → d.action = Action.absent) := by
  rcases hfind : R.db.find? (fun d => d.syspath == normalizePath R.sysPath p) with _ | d
  · constructor
    · constructor
      · intro _ d hd
        rw [List.find?_eq_none] at hfind
        simpa using hfind d hd
      · intro _
        simp [resolve_by_syspath, hfind]
    · intro d hd
      simp [resolve_by_syspath, hfind] at hd
  · constructor
    · constructor
      · intro h
        simp [resolve_by_syspath, hfind] at h
      · intro h
        exfalso
        have hmem := List.mem_of_find?_eq_some hfind
        have hp := List.find?_some hfind
        exact h d hmem (by simpa using hp)
    · intro e he
      simp only [resolve_by_syspath, hfind, Except.ok.injEq] at he
      rw [← he]

/-- Modelled from the spec: `DeviceEnumerator.results()` — the ordered
sequence of syspaths of the discovered devices; a subsystem filter is a pure
predicate over the discovered set and does not alter discovery order. -/
def enumResults (discovered : List DeviceRecord) : Option String → List String
  | none => discovered.map DeviceRecord.syspath
  | some s => (discovered.filter (fun d => d.subsystem == s)).map DeviceRecord.syspath

/-- C3: the filtered enumeration is a subsequence of the unfiltered one
(order preserved, unfiltered a superset), and its members are exactly the
syspaths of discovered devices whose subsystem equals the filter. -/
theorem enumResults_filter_is_subsequence (ds : List DeviceRecord) (s : String) :
    (enumResults ds (some s)).Sublist (enumResults ds none) ∧
    ∀ p, p ∈ enumResults ds (some s) ↔
      ∃ d ∈ ds, d.subsystem = s ∧ d.syspath = p := by
  constructor
  · exact List.Sublist.map DeviceRecord.syspath (List.filter_sublist ds)
  · intro p
    simp only [enumResults, List.mem_map, List.mem_filter, beq_iff_eq]
    constructor
    · rintro ⟨d, ⟨hmem, hsub⟩, hpath⟩
      exact ⟨d, hmem, hsub, hpath⟩
    · rintro ⟨d, hmem, hsub, hpath⟩
      exact ⟨d, ⟨hmem, hsub⟩, hpath⟩

/-- Embedded from test-libudev.c:153-167: the consumer loop of
`test_enumerate`.  For each yielded syspath it resolves the device; on
success the device is printed and `count` incremented, on failure the entry
is passed over and the loop continues with the next entry.  Returns the
final count and the successfully resolved records in print order. -/
def enumLoop (resolve : String → Option DeviceRecord) : List String → Nat × List DeviceRecord
  | [] => (0, [])
  | e :: rest =>
    match resolve e with
    | some d =>
      match enumLoop resolve rest with
      | (c, ds) => (c + 1, d :: ds)
    | none => enumLoop resolve rest

/-- A resolver function for which exactly one entry fails to resolve,
standing for a device that disappeared between discovery and resolution. -/
def flakyResolve (e : String) : Option DeviceRecord :=
  if e == "/sys/devices/gone" then none else some { demoNullRecord with syspath := e }

/-- C8 counterexample: the failed entry is not counted.  With two yielded
entries of which the first fails to resolve, the loop's count is 1, not the
2 that "skipped and counted" would give. -/
theorem enumLoop_failed_entry_not_counted :
    (enumLoop flakyResolve ["/sys/devices/gone", "/sys/devices/virtual/mem/null"]).1 ≠
      ["/sys/devices/gone", "/sys/devices/virtual/mem/null"].length := by
  decide

/-- C8 amended: a failed resolution does not abort the loop — every entry
after it is still processed — but the failed entry is skipped WITHOUT being
counted: the count and the records are exactly those of the successfully
resolved entries, in order. -/
theorem enumLoop_skips_failures_and_continues
    (resolve : String → Option DeviceRecord) (entries : List String) :
    enumLoop resolve entries =
      ((entries.filter (fun e => (resolve e).isSome)).length,
        entries.filterMap resolve) := by
  induction entries with
  | nil => rfl
  | cons e rest ih =>
    rcases hr : resolve e with _ | d
    · simp [enumLoop, List.filter_cons, List.filterMap_cons, hr, ih]
    · simp [enumLoop, List.filter_cons, List.filterMap_cons, hr, ih]

/-- The library surface `test_enumerate` calls into, abstracted as function
fields: creating an enumerator from a subsystem filter (NULL = none) and
resolving a syspath to a device. -/
structure LibUdevApi where
  enumerate_new_from_subsystems : Option String → Option (List String)
  device_new_from_syspath : String → Option DeviceRecord

/-- Embedded from test-libudev.c:144-171: `test_enumerate` receives the
--subsystem argument but passes NULL to `udev_enumerate_new_from_subsystems`.
`none` is the `return -1` path taken when no enumerator is obtained;
otherwise the consumer loop runs over the yielded entries. -/
def test_enumerate (api : LibUdevApi) (subsystem : Option String) :
    Option (Nat × List DeviceRecord) :=
  match api.enumerate_new_from_subsystems none with
  | none => none
  | some entries => some (enumLoop api.device_new_from_syspath entries)

/-- C10: the harness's enumeration pass is independent of the subsystem
argument — for any two values (including none) the devices enumerated and
the resulting count are identical, because `test_enumerate` always passes
NULL to `udev_enumerate_new_from_subsystems`. -/
theorem test_enumerate_ignores_subsystem (api : LibUdevApi) (s₁ s₂ : Option String) :
    test_enumerate api s₁ = test_enumerate api s₂ := rfl

/-- An event frame as decoded key/value pairs; the raw wire format is owned
by the external transport provider, which yields frames decodable into
(action, syspath, subsystem, devnode, properties). -/
abbrev Frame := List (String × String)

/-- Modelled from the spec: the action carried by an event frame; "absent"
is never produced by an event, so it is not a valid frame action. -/
def parseAction : String → Option Action
  | "add" => some Action.add
  | "remove" => some Action.remove
  | "change" => some Action.change
  | "move" => some Action.move
  | "online" => some Action.online
  | "offline" => some Action.offline
  | _ => none

/-- Modelled from the spec: decoding one event frame into a DeviceRecord
with `action` set from the frame and links/properties populated from the
frame only; `none` when the frame cannot be decoded (missing identity or
unrecognized action). -/
def decodeFrame (f : Frame) : Option DeviceRecord :=
  match f.lookup "ACTION", f.lookup "SYSPATH" with
  | some a, some p =>
    match parseAction a with
    | some act =>
      some { syspath := p
             devpath := p
             subsystem := ((f.lookup "SUBSYSTEM").getD "")
             driver := ""
             devnode := f.lookup "DEVNAME"
             devnum := none
             action := act
             links := (f.filter (fun kv => kv.1 == "DEVLINK")).map Prod.snd
             properties := f
             parent := none }
    | none => none
  | _, _ => none

/-- Modelled from the spec: EventMonitor state machine
Created → Bound → Receiving → Closed. -/
inductive MState where
  | created | bound | receiving | closed
  deriving DecidableEq

inductive RecvError where
  | wouldBlock | malformed | closedMon | notReceiving
  deriving DecidableEq

/-- Modelled from the spec: an EventMonitor — its state-machine state and
the pending event frames the transport has delivered on its handle, in
delivery order. -/
structure Monitor where
  state : MState
  queue : List Frame
  deriving DecidableEq

/-- Modelled from the spec: `receive()` decodes exactly one pending event
frame; fails with `WouldBlock` when invoked with nothing pending (monitor
untouched), with `Malformed` when the frame cannot be decoded (the bad frame
is consumed, the monitor keeps working), and with `Closed` after close. -/
def receive (m : Monitor) : Except RecvError DeviceRecord × Monitor :=
  match m.state with
  | MState.receiving =>
    match m.queue with
    | [] => (Except.error RecvError.wouldBlock, m)
    | f :: rest =>
      match decodeFrame f with
      | none => (Except.error RecvError.malformed, { m with queue := rest })
      | some d => (Except.ok d, { m with queue := rest })
  | MState.closed => (Except.error RecvError.closedMon, m)
  | _ => (Except.error RecvError.notReceiving, m)

/-- C4: calling `receive` on a receiving monitor whose handle has no pending
frame fails with WouldBlock and returns the monitor unchanged — the queue,
the state-machine state, and hence every subsequently delivered event are
exactly as if the call had not been made. -/
theorem receive_wouldBlock_no_change (m : Monitor)
    (hs : m.state = MState.receiving) (hq : m.queue = []) :
    receive m = (Except.error RecvError.wouldBlock, m) := by
  unfold receive
  rw [hs, hq]

/-- C4 witness: a receiving monitor with an empty queue. -/
theorem receive_wouldBlock_no_change_witness :
    receive { state := MState.receiving, queue := [] } =
      (Except.error RecvError.wouldBlock, { state := MState.receiving, queue := [] }) :=
  receive_wouldBlock_no_change { state := MState.receiving, queue := [] } rfl rfl

/-- C5: a malformed frame makes `receive` fail with Malformed, and a
subsequent `receive` of a valid frame on the same monitor still decodes
correctly — one bad frame neither poisons nor closes the monitor. -/
theorem receive_malformed_recovers (m : Monitor) (f g : Frame)
    (rest : List Frame) (r : DeviceRecord)
    (hs : m.state = MState.receiving) (hq : m.queue = f :: g :: rest)
    (hf : decodeFrame f = none) (hg : decodeFrame g = some r) :
    (receive m).1 = Except.error RecvError.malformed ∧
    (receive (receive m).2).1 = Except.ok r ∧
    (receive (receive m).2).2 = { state := MState.receiving, queue := rest } := by
  obtain ⟨st, q⟩ := m
  simp only at hs hq
  subst hs hq
  simp [receive, hf, hg]

/-- A frame with no ACTION or SYSPATH key, hence undecodable. -/
def badFrame : Frame := [("FOO", "bar")]

/-- A well-formed add frame for a PCI controller device. -/
def addFrame : Frame :=
  [("ACTION", "add"), ("SYSPATH", "/sys/devices/pci0000:00/0000:00:1f.2")]

/-- C5 witness: a monitor whose queue holds a malformed frame followed by a
valid add frame reports Malformed once and then decodes the add frame. -/
theorem receive_malformed_recovers_witness :
    (receive { state := MState.receiving, queue := [badFrame, addFrame] }).1 =
        Except.error RecvError.malformed ∧
      (receive (receive { state := MState.receiving, queue := [badFrame, addFrame] }).2).1 =
        Except.ok ((decodeFrame addFrame).getD demoNullRecord) ∧
      (receive (receive { state := MState.receiving, queue := [badFrame, addFrame] }).2).2 =
        { state := MState.receiving, queue := [] } :=
  receive_malformed_recovers
    { state := MState.receiving, queue := [badFrame, addFrame] }
    badFrame addFrame [] ((decodeFrame addFrame).getD demoNullRecord)
    rfl rfl (by decide) (by decide)

/-- The outcome `receive` produces for one frame. -/
def frameResult (f : Frame) : Except RecvError DeviceRecord :=
  match decodeFrame f with
  | none => Except.error RecvError.malformed
  | some d => Except.ok d

/-- Repeatedly call `receive`, collecting each outcome, until WouldBlock. -/
def drainAux : Nat → Monitor → List (Except RecvError DeviceRecord)
  | 0, _ => []
  | Nat.succ n, m =>
    match receive m with
    | (Except.error RecvError.wouldBlock, _) => []
    | (r, m2) => r :: drainAux n m2

/-- All outcomes a monitor delivers from its currently pending frames. -/
def drain (m : Monitor) : List (Except RecvError DeviceRecord) :=
  drainAux m.queue.length m

theorem drainAux_receiving (q : List Frame) :
    ∀ m : Monitor, m.state = MState.receiving → m.queue = q →
      drainAux q.length m = q.map frameResult := by
  induction q with
  | nil =>
    intro m hs hq
    rfl
  | cons f rest ih =>
    intro m hs hq
    obtain ⟨st, mq⟩ := m
    simp only at hs hq
    subst hs hq
    rcases hf : decodeFrame f with _ | d
    · simp only [List.length_cons, drainAux, receive, hf]
      rw [ih { state := MState.receiving, queue := rest } rfl rfl]
      simp [frameResult, hf]
    · simp only [List.length_cons, drainAux, receive, hf]
      rw [ih { state := MState.receiving, queue := rest } rfl rfl]
      simp [frameResult, hf]

/-- C7: a receiving monitor delivers outcomes for exactly the frames the
transport delivered, in transport order — one outcome per frame with no
reordering, batching, deduplication or coalescing — and the successful
`receive` results are the decoded records of the decodable frames in that
same order. -/
theorem receive_preserves_transport_order (m : Monitor)
    (hs : m.state = MState.receiving) :
    drain m = m.queue.map frameResult ∧
    (drain m).filterMap Except.toOption = m.queue.filterMap decodeFrame := by
  have hdrain := drainAux_receiving m.queue m hs rfl
  refine ⟨hdrain, ?_⟩
  unfold drain
  rw [hdrain, List.filterMap_map]
  have hpt : ∀ f : Frame, Except.toOption (frameResult f) = decodeFrame f := by
    intro f
    rcases hf : decodeFrame f with _ | d <;> simp [frameResult, hf, Except.toOption]
  rw [Function.comp_def, funext hpt]

/-- C7 witness: two add frames for the same device are delivered as two
separate records, in order, with no coalescing. -/
theorem receive_preserves_transport_order_witness :
    drain { state := MState.receiving, queue := [addFrame, addFrame] } =
        [addFrame, addFrame].map frameResult ∧
      (drain { state := MState.receiving, queue := [addFrame, addFrame] }).filterMap
          Except.toOption =
        [addFrame, addFrame].filterMap decodeFrame :=
  receive_preserves_transport_order
    { state := MState.receiving, queue := [addFrame, addFrame] } rfl

/-- Modelled from the spec: the read-only device hierarchy snapshot — an
arena of records whose `parent` field is the arena index of the parent
record (spec design note: "arena of records indexed by syspath plus plain
index-based parent links").  Ancestors are laid out before descendants, so
a parent's index is strictly below its child's: the structural form of the
spec invariant that the parent chain is finite and acyclic. -/
structure Hierarchy where
  recs : List DeviceRecord

/-- One step of the parent walk: the arena index of the parent of the
record at index `i`, none at the hierarchy root (or out of range). -/
def parentIdx (H : Hierarchy) (i : Nat) : Option Nat :=
  match H.recs.get? i with
  | some r => r.parent
  | none => none

/-- Checks the arena's topological layout: every record's parent index is
strictly below its own index. -/
def parentsTopoAux : Nat → List DeviceRecord → Bool
  | _, [] => true
  | i, r :: rest =>
    (match r.parent with
     | none => true
     | some j => decide (j < i)) && parentsTopoAux (i + 1) rest

def parentsTopo (H : Hierarchy) : Bool :=
  parentsTopoAux 0 H.recs

/-- The walk obtained by repeatedly applying the parent step from record
`i`, bounded by `fuel` applications. -/
def chainFuel (H : Hierarchy) : Nat → Nat → List Nat
  | 0, _ => []
  | Nat.succ fuel, i =>
    i :: (match parentIdx H i with
          | none => []
          | some j => chainFuel H fuel j)

theorem parentsTopoAux_lt (l : List DeviceRecord) :
    ∀ k, parentsTopoAux k l = true →
      ∀ i r, l.get? i = some r → ∀ j, r.parent = some j → j < k + i := by
  induction l with
  | nil =>
    intro k _ i r hget
    simp at hget
  | cons a rest ih =>
    intro k hok i r hget j hp
    rw [parentsTopoAux, Bool.and_eq_true] at hok
    cases i with
    | zero =>
      rw [List.get?_cons_zero, Option.some.injEq] at hget
      subst hget
      rw [hp] at hok
      have := of_decide_eq_true hok.1
      omega
    | succ n =>
      rw [List.get?_cons_succ] at hget
      have := ih (k + 1) hok.2 n r hget j hp
      omega

theorem parentIdx_lt (H : Hierarchy) (htopo : parentsTopo H = true)
    (i j : Nat) (hj : parentIdx H i = some j) : j < i := by
  unfold parentIdx at hj
  rcases hr : H.recs.get? i with _ | r
  · rw [hr] at hj
    simp at hj
  · rw [hr] at hj
    have := parentsTopoAux_lt H.recs 0 htopo i r hr j hj
    omega

theorem chainFuel_spec (H : Hierarchy) (htopo : parentsTopo H = true) :
    ∀ fuel i, i < fuel →
      chainFuel H fuel i ≠ [] ∧
      (∀ k ∈ chainFuel H fuel i, k ≤ i) ∧
      List.Pairwise (fun a b => b < a) (chainFuel H fuel i) ∧
      (chainFuel H fuel i).length ≤ i + 1 ∧
      ∃ last, (chainFuel H fuel i).getLast? = some last ∧ parentIdx H last = none := by
  intro fuel
  induction fuel with
  | zero =>
    intro i hi
    omega
  | succ fuel ih =>
    intro i hi
    rcases hp : parentIdx H i with _ | j
    · have hchain : chainFuel H (Nat.succ fuel) i = [i] := by
        simp [chainFuel, hp]
      rw [hchain]
      refine ⟨by simp, ?_, by simp, by simp, ⟨i, by simp, hp⟩⟩
      intro k hk
      simp at hk
      omega
    · have hj : j < i := parentIdx_lt H htopo i j hp
      obtain ⟨hne, hmem, hpw, hlen, last, hlast, hroot⟩ := ih j (by omega)
      have hchain : chainFuel H (Nat.succ fuel) i = i :: chainFuel H fuel j := by
        simp [chainFuel, hp]
      rw [hchain]
      refine ⟨by simp, ?_, ?_, ?_, ?_⟩
      · intro k hk
        rcases List.mem_cons.1 hk with hk | hk
        · omega
        · have := hmem k hk
          omega
      · rw [List.pairwise_cons]
        refine ⟨?_, hpw⟩
        intro b hb
        have := hmem b hb
        omega
      · have : (chainFuel H fuel j).length ≤ i := by omega
        simpa using this
      · obtain ⟨y, ys, hc⟩ : ∃ y ys, chainFuel H fuel j = y :: ys := by
          rcases hcc : chainFuel H fuel j with _ | ⟨y, ys⟩
          · exact absurd hcc hne
          · exact ⟨y, ys, rfl⟩
        rw [hc, List.getLast?_cons_cons]
        rw [hc] at hlast
        exact ⟨last, hlast, hroot⟩

/-- C2: in a hierarchy whose arena is topologically laid out (the spec's
finite-acyclic-chain invariant) and whose syspaths are distinct, the parent
walk from any record terminates within |arena| steps at a record with no
parent, and no syspath appears twice along the walk. -/
theorem parent_chain_terminates_acyclic (H : Hierarchy) (i : Nat)
    (htopo : parentsTopo H = true)
    (hnd : (H.recs.map DeviceRecord.syspath).Nodup)
    (hi : i < H.recs.length) :
    chainFuel H H.recs.length i ≠ [] ∧
    (chainFuel H H.recs.length i).length ≤ H.recs.length ∧
    (∃ last, (chainFuel H H.recs.length i).getLast? = some last ∧
      parentIdx H last = none) ∧
    ((chainFuel H H.recs.length i).map
      (fun k => (H.recs.get? k).map DeviceRecord.syspath)).Nodup := by
  obtain ⟨hne, hmem, hpw, hlen, hlast⟩ := chainFuel_spec H htopo H.recs.length i hi
  refine ⟨hne, by omega, hlast, ?_⟩
  have hchainNd : (chainFuel H H.recs.length i).Nodup :=
    hpw.imp (fun hab => (Nat.ne_of_lt hab).symm)
  refine List.Nodup.map_on ?_ hchainNd
  intro x hx y hy heq
  have hxlt : x < H.recs.length := by
    have := hmem x hx
    omega
  refine List.get?_inj ?_ hnd ?_
  · rw [List.length_map]
    exact hxlt
  · rw [List.get?_map, List.get?_map]
    exact heq

/-- A three-record hierarchy: a root, a child, and a grandchild. -/
def demoHierarchy : Hierarchy :=
  { recs :=
      [ { demoNullRecord with
            syspath := "/sys/devices", devpath := "/devices", subsystem := ""
            devnode := none, devnum := none, parent := none }
      , { demoNullRecord with
            syspath := "/sys/devices/virtual", devpath := "/devices/virtual"
            subsystem := "", devnode := none, devnum := none, parent := some 0 }
      , { demoNullRecord with parent := some 1 } ] }

/-- C2 witness: the walk from the grandchild of the demo hierarchy. -/
theorem parent_chain_terminates_acyclic_witness :
    parentsTopo demoHierarchy = true ∧
    (demoHierarchy.recs.map DeviceRecord.syspath).Nodup ∧
    2 < demoHierarchy.recs.length ∧
    (chainFuel demoHierarchy demoHierarchy.recs.length 2 ≠ [] ∧
      (chainFuel demoHierarchy demoHierarchy.recs.length 2).length ≤
        demoHierarchy.recs.length ∧
      (∃ last, (chainFuel demoHierarchy demoHierarchy.recs.length 2).getLast? =
          some last ∧ parentIdx demoHierarchy last = none) ∧
      ((chainFuel demoHierarchy demoHierarchy.recs.length 2).map
        (fun k => (demoHierarchy.recs.get? k).map DeviceRecord.syspath)).Nodup) :=
  ⟨by decide, by decide, by decide,
    parent_chain_terminates_acyclic demoHierarchy 2 (by decide) (by decide) (by decide)⟩

/-- Modelled from the spec: the resolver-side parent state — the hierarchy
snapshot plus the memo cache of already-resolved parent links (arena index
↦ cached answer), per "parent: resolved lazily and cached". -/
structure PState where
  hier : Hierarchy
  cache : List (Nat × Option Nat)

/-- Modelled from the spec: `parent_of(record)` walks one level up the
device hierarchy, memoized: a cached answer is returned unchanged,
otherwise the parent link is resolved from the hierarchy and recorded in
the cache; none at the hierarchy root. -/
def parent_of (s : PState) (i : Nat) : Option Nat × PState :=
  match s.cache.lookup i with
  | some v => (v, s)
  | none =>
    (parentIdx s.hier i, { s with cache := (i, parentIdx s.hier i) :: s.cache })

/-- The full parent walk from record `i`, threading the memo state and
collecting the visited arena indices, bounded by `fuel` steps. -/
def walkFuel : PState → Nat → Nat → List Nat × PState
  | s, 0, _ => ([], s)
  | s, Nat.succ fuel, i =>
    match parent_of s i with
    | (none, s1) => ([i], s1)
    | (some j, s1) =>
      match walkFuel s1 fuel j with
      | (l, s2) => (i :: l, s2)

theorem parent_of_cached (s : PState) (i : Nat) :
    ((parent_of s i).2).cache.lookup i = some (parent_of s i).1 := by
  rcases h : s.cache.lookup i with _ | v
  · simp [parent_of, h, List.lookup]
  · simp [parent_of, h]

theorem parent_of_of_cached {s : PState} {i : Nat} {v : Option Nat}
    (h : s.cache.lookup i = some v) : parent_of s i = (v, s) := by
  simp [parent_of, h]

/-- State `t` preserves the hierarchy of `s` and every answer `s` has
already cached. -/
def CacheLe (s t : PState) : Prop :=
  s.hier = t.hier ∧ ∀ k v, s.cache.lookup k = some v → t.cache.lookup k = some v

theorem cacheLe_refl (s : PState) : CacheLe s s :=
  ⟨rfl, fun _ _ h => h⟩

theorem cacheLe_trans {s t u : PState} (h₁ : CacheLe s t) (h₂ : CacheLe t u) :
    CacheLe s u :=
  ⟨h₁.1.trans h₂.1, fun k v h => h₂.2 k v (h₁.2 k v h)⟩

theorem parent_of_cacheLe (s : PState) (i : Nat) :
    CacheLe s (parent_of s i).2 := by
  rcases h : s.cache.lookup i with _ | v
  · refine ⟨by simp [parent_of, h], ?_⟩
    intro k w hw
    simp only [parent_of, h]
    by_cases hk : k = i
    · subst hk
      rw [h] at hw
      simp at hw
    · have hb : (k == i) = false := by simp [hk]
      simpa [List.lookup, hb] using hw
  · simp only [parent_of, h]
    exact cacheLe_refl s

theorem walkFuel_cacheLe : ∀ (fuel : Nat) (s : PState) (i : Nat),
    CacheLe s (walkFuel s fuel i).2 := by
  intro fuel
  induction fuel with
  | zero =>
    intro s i
    exact cacheLe_refl s
  | succ fuel ih =>
    intro s i
    rcases hp : parent_of s i with ⟨v, s1⟩
    have hle : CacheLe s s1 := by
      have := parent_of_cacheLe s i
      rw [hp] at this
      exact this
    cases v with
    | none =>
      simp only [walkFuel, hp]
      exact hle
    | some j =>
      rcases hw : walkFuel s1 fuel j with ⟨l, s2⟩
      simp only [walkFuel, hp, hw]
      refine cacheLe_trans hle ?_
      have := ih s1 j
      rw [hw] at this
      exact this

theorem walkFuel_replay : ∀ (fuel : Nat) (s : PState) (i : Nat)
    (l : List Nat) (t : PState), walkFuel s fuel i = (l, t) →
    walkFuel t fuel i = (l, t) := by
  intro fuel
  induction fuel with
  | zero =>
    intro s i l t h
    simp only [walkFuel, Prod.mk.injEq] at h
    rw [← h.1, ← h.2]
    rfl
  | succ fuel ih =>
    intro s i l t h
    rcases hp : parent_of s i with ⟨v, s1⟩
    have hcached : s1.cache.lookup i = some v := by
      have := parent_of_cached s i
      rw [hp] at this
      exact this
    cases v with
    | none =>
      rw [walkFuel, hp] at h
      simp only [Prod.mk.injEq] at h
      rw [← h.1, ← h.2]
      rw [walkFuel, parent_of_of_cached hcached]
    | some j =>
      rcases hw : walkFuel s1 fuel j with ⟨lw, s2⟩
      rw [walkFuel, hp] at h
      simp only at h
      rw [hw] at h
      simp only [Prod.mk.injEq] at h
      rw [← h.1, ← h.2]
      have hle : CacheLe s1 s2 := by
        have := walkFuel_cacheLe fuel s1 j
        rw [hw] at this
        exact this
      have hcached2 : s2.cache.lookup i = some (some j) := hle.2 i (some j) hcached
      rw [walkFuel, parent_of_of_cached hcached2]
      simp only
      rw [ih s1 j lw s2 hw]

/-- C9: `parent_of` is memoized — repeating a call on the resulting state
returns the same answer and leaves the state untouched, walking the full
parent chain a second time visits the identical sequence of records, and
(from a fresh state) `parent_of` answers none exactly at the hierarchy
root, where the record has no parent link. -/
theorem parent_of_memoized (s : PState) (i : Nat) :
    parent_of (parent_of s i).2 i = ((parent_of s i).1, (parent_of s i).2) ∧
    (∀ fuel, walkFuel (walkFuel s fuel i).2 fuel i = walkFuel s fuel i) ∧
    ((parent_of { hier := s.hier, cache := [] } i).1 = none ↔
      parentIdx s.hier i = none) := by
  refine ⟨parent_of_of_cached (parent_of_cached s i), ?_, ?_⟩
  · intro fuel
    rcases hw : walkFuel s fuel i with ⟨l, t⟩
    simpa [hw] using walkFuel_replay fuel s i l t hw
  · simp [parent_of, List.lookup]

end Udev
